import Mathlib

/-!
Shallow embedding of the physics kernel of the DNA coarse-grained
molecular-dynamics engine (src/system.c), over exact real arithmetic.

Particles, the world store, the force-field evaluator (bond, angle,
dihedral, stack), the velocity-Verlet integrator, the Berendsen-style
thermostat and the diagnostics (kinetic energy, temperature, momentum,
the momentum-conservation check) are translated from src/system.c.
The 3-component vector primitives live in vmath.h / vmath.c, which are
not part of src/; they are modelled from the spec (section 2: "3-component
vector add/sub/scale/dot/length/angle/dihedral-angle operations. Pure
functions, no state") with the standard mathematical definitions.
-/

set_option maxHeartbeats 1000000

noncomputable section

namespace DNA

/-- Modelled from the spec: a 3-component real vector (vmath.h's `Vec3`,
not under src/). -/
@[ext]
structure Vec3 where
  x : ℝ
  y : ℝ
  z : ℝ

/-- Modelled from the spec: vmath's vector addition. -/
def add (a b : Vec3) : Vec3 := ⟨a.x + b.x, a.y + b.y, a.z + b.z⟩

/-- Modelled from the spec: vmath's vector subtraction (first minus second). -/
def sub (a b : Vec3) : Vec3 := ⟨a.x - b.x, a.y - b.y, a.z - b.z⟩

/-- Modelled from the spec: vmath's scalar multiple of a vector. -/
def scale (v : Vec3) (l : ℝ) : Vec3 := ⟨l * v.x, l * v.y, l * v.z⟩

/-- Modelled from the spec: vmath's dot product. -/
def dot (a b : Vec3) : ℝ := a.x * b.x + a.y * b.y + a.z * b.z

/-- Modelled from the spec: vmath's squared length. -/
def length2 (v : Vec3) : ℝ := dot v v

/-- Modelled from the spec: vmath's Euclidean length. -/
def length (v : Vec3) : ℝ := Real.sqrt (length2 v)

/-- Modelled from the spec: vmath's squared distance between two points. -/
def distance2 (a b : Vec3) : ℝ := length2 (sub a b)

/-- Modelled from the spec: vmath's distance between two points. -/
def distance (a b : Vec3) : ℝ := length (sub a b)

/-- Modelled from the spec: vmath's cross product (used by the
dihedral-angle primitive). -/
def cross (a b : Vec3) : Vec3 :=
  ⟨a.y * b.z - a.z * b.y, a.z * b.x - a.x * b.z, a.x * b.y - a.y * b.x⟩

/-- Modelled from the spec: vmath's angle between two vectors. -/
def angle (a b : Vec3) : ℝ := Real.arccos (dot a b / (length a * length b))

/-- Two-argument arctangent, written through the complex argument:
`atan2 y x` is the angle of the point `(x, y)` in `(-π, π]`. -/
def atan2 (y x : ℝ) : ℝ := Complex.arg ⟨x, y⟩

/-- Modelled from the spec: vmath's signed dihedral angle of three
consecutive bond vectors, in the standard two-argument-arctangent
formulation. -/
def dihedral (r1 r2 r3 : Vec3) : ℝ :=
  atan2 (length r2 * dot r1 (cross r2 r3)) (dot (cross r1 r2) (cross r2 r3))

/-- Atomic-mass unit in kg (src/system.c `AU`). -/
def AU : ℝ := 1.660539e-27

/-- Mass of a base particle (src/system.c `MASS_A`). -/
def MASS_A : ℝ := 134.1 * AU

/-- Mass of a phosphate particle (src/system.c `MASS_P`). -/
def MASS_P : ℝ := 94.97 * AU

/-- Mass of a sugar particle (src/system.c `MASS_S`). -/
def MASS_S : ℝ := 83.11 * AU

/-- Equilibrium sugar to own-phosphate bond length (src/system.c `D_S5P`). -/
def D_S5P : ℝ := 3.899e-10

/-- Equilibrium sugar to previous-phosphate bond length (src/system.c `D_S3P`). -/
def D_S3P : ℝ := 3.559e-10

/-- Equilibrium sugar-base bond length (src/system.c `D_SA`). -/
def D_SA : ℝ := 6.430e-10

/-- Equilibrium distance of the stacking potential (src/system.c `STACK_SIGMA`). -/
def STACK_SIGMA : ℝ := 3.414e-10

/-- Energy unit (src/system.c `EPSILON`). -/
def EPSILON : ℝ := 1.81e-21

/-- Unit conversion for bond constants (src/system.c `FROM_ANGSTROM_SQUARED`). -/
def FROM_ANGSTROM_SQUARED : ℝ := 1e20

/-- Degrees to radians (src/system.c `TO_RADIANS`). -/
def TO_RADIANS : ℝ := Real.pi / 180

/-- Quadratic bond-stretch constant (src/system.c `BOND_K1`). -/
def BOND_K1 : ℝ := EPSILON * FROM_ANGSTROM_SQUARED

/-- Quartic bond-stretch constant (src/system.c `BOND_K2`). -/
def BOND_K2 : ℝ := 100 * EPSILON * FROM_ANGSTROM_SQUARED

/-- Angle-bend stiffness (src/system.c `BOND_Ktheta`). -/
def BOND_Ktheta : ℝ := 400 * EPSILON

/-- Dihedral-twist stiffness (src/system.c `BOND_Kphi`). -/
def BOND_Kphi : ℝ := 4 * EPSILON

/-- Stacking-energy scale (src/system.c `BOND_STACK`). -/
def BOND_STACK : ℝ := EPSILON

/-- Equilibrium angle (src/system.c `ANGLE_S5_P_3S`). -/
def ANGLE_S5_P_3S : ℝ := 94.49 * TO_RADIANS

/-- Equilibrium angle (src/system.c `ANGLE_P_5S3_P`). -/
def ANGLE_P_5S3_P : ℝ := 120.15 * TO_RADIANS

/-- Equilibrium angle (src/system.c `ANGLE_P_5S_A`). -/
def ANGLE_P_5S_A : ℝ := 113.13 * TO_RADIANS

/-- Equilibrium angle (src/system.c `ANGLE_P_3S_A`). -/
def ANGLE_P_3S_A : ℝ := 108.38 * TO_RADIANS

/-- Equilibrium dihedral angle (src/system.c `DIHEDRAL_P_5S3_P_5S`). -/
def DIHEDRAL_P_5S3_P_5S : ℝ := -154.80 * TO_RADIANS

/-- Equilibrium dihedral angle (src/system.c `DIHEDRAL_S3_P_5S3_P`). -/
def DIHEDRAL_S3_P_5S3_P : ℝ := -179.17 * TO_RADIANS

/-- Equilibrium dihedral angle (src/system.c `DIHEDRAL_A_S3_P_5S`). -/
def DIHEDRAL_A_S3_P_5S : ℝ := -22.60 * TO_RADIANS

/-- Equilibrium dihedral angle (src/system.c `DIHEDRAL_S3_P_5S_A`). -/
def DIHEDRAL_S3_P_5S_A : ℝ := 50.69 * TO_RADIANS

/-- Internal energy unit to electronvolt (src/system.c `ENERGY_FACTOR`). -/
def ENERGY_FACTOR : ℝ := 1 / 1.602177e-19

/-- Boltzmann constant (src/system.c `BOLTZMANN_CONSTANT`). -/
def BOLTZMANN_CONSTANT : ℝ := 1.38065e-23

/-- One particle of the world store: position, velocity, accumulated force
and mass (src/system.h's `Particle`, declared through its uses in
src/system.c). -/
@[ext]
structure Particle where
  pos : Vec3
  vel : Vec3
  F : Vec3
  m : ℝ

/-- The run configuration (src/system.h's `Config`, read through
src/system.c's uses: `numMonomers`, `timeStep`, `thermostatTemp`,
`thermostatTau`). -/
structure Config where
  numMonomers : ℕ
  timeStep : ℝ
  thermostatTemp : ℝ
  thermostatTau : ℝ

/-- The world store: three sequences of particles (sugars `Ss`, bases `As`,
phosphates `Ps`), each indexed `0 .. numMonomers-1`; the C program lays the
three sequences out contiguously as `world.all`. Indices at or beyond
`numMonomers` are never touched by the kernel. -/
@[ext]
structure World where
  Ss : ℕ → Particle
  As : ℕ → Particle
  Ps : ℕ → Particle

/-- The three particle kinds of a monomer: sugar, base, phosphate. -/
inductive Kind
  | S
  | A
  | P

/-- Read one particle of the store. -/
def World.get (w : World) (k : Kind) (i : ℕ) : Particle :=
  match k with
  | Kind.S => w.Ss i
  | Kind.A => w.As i
  | Kind.P => w.Ps i

/-- Write one particle of the store. -/
def World.set (w : World) (k : Kind) (i : ℕ) (p : Particle) : World :=
  match k with
  | Kind.S => { w with Ss := Function.update w.Ss i p }
  | Kind.A => { w with As := Function.update w.As i p }
  | Kind.P => { w with Ps := Function.update w.Ps i p }

/-- Bond-stretch force `Fbond` of src/system.c: force of magnitude
`2 k1 d + 4 k2 d^3` along the normalized separation vector, added to the
first particle and subtracted from the second. -/
def Fbond (p1 p2 : Particle) (d0 : ℝ) : Particle × Particle :=
  let k1 := BOND_K1
  let k2 := BOND_K2
  let drVec := sub p2.pos p1.pos
  let dr := length drVec
  let d := dr - d0
  let d3 := d * d * d
  let drVecNormalized := scale drVec (1 / dr)
  let F := scale drVecNormalized (2 * k1 * d + 4 * k2 * d3)
  ({ p1 with F := add p1.F F }, { p2 with F := sub p2.F F })

/-- Stacking potential `Vstack` of src/system.c: shifted 12-6
Lennard-Jones form. -/
def Vstack (p1 p2 : Particle) : ℝ :=
  let kStack := BOND_STACK
  let sigma := STACK_SIGMA
  let sigma2 := sigma * sigma
  let sigma6 := sigma2 * sigma2 * sigma2
  let sigma12 := sigma6 * sigma6
  let r2 := distance2 p1.pos p2.pos
  let r6 := r2 * r2 * r2
  let r12 := r6 * r6
  kStack * (sigma12 / r12 - 2 * sigma6 / r6 + 1)

/-- Stacking force `Fstack` of src/system.c: the separation vector scaled
by `-12 kStack (sigma^12/dr^14 - sigma^6/dr^8)`, added to the first
particle and subtracted from the second. -/
def Fstack (p1 p2 : Particle) : Particle × Particle :=
  let kStack := BOND_STACK
  let sigma := STACK_SIGMA
  let sigma2 := sigma * sigma
  let sigma6 := sigma2 * sigma2 * sigma2
  let sigma12 := sigma6 * sigma6
  let drVec := sub p2.pos p1.pos
  let dr := length drVec
  let dr2 := dr * dr
  let dr3 := dr * dr * dr
  let dr6 := dr3 * dr3
  let dr8 := dr6 * dr2
  let dr12 := dr6 * dr6
  let dr14 := dr12 * dr2
  let Fi := scale drVec (-12 * kStack * (sigma12 / dr14 - sigma6 / dr8))
  ({ p1 with F := add p1.F Fi }, { p2 with F := sub p2.F Fi })

/-- Angle-bend potential `Vangle` of src/system.c. -/
def Vangle (p1 p2 p3 : Particle) (theta0 : ℝ) : ℝ :=
  let ktheta := BOND_Ktheta
  let a := sub p1.pos p2.pos
  let b := sub p3.pos p2.pos
  let dtheta := angle a b - theta0
  ktheta / 2 * dtheta * dtheta

/-- Angle-bend force `Fangle` of src/system.c: the three-body angle-force
formula on the two bond vectors from the central particle `p2`, guarded
to add no force when `sin theta` is below `1e-30`; the central particle
receives the negated sum of the two outer forces. -/
def Fangle (p1 p2 p3 : Particle) (theta0 : ℝ) : Particle × Particle × Particle :=
  let ktheta := BOND_Ktheta
  let a := sub p1.pos p2.pos
  let b := sub p3.pos p2.pos
  let lal := length a
  let lbl := length b
  let adotb := dot a b
  let costheta := adotb / (lal * lbl)
  let theta := Real.arccos costheta
  let sintheta := Real.sqrt (1 - costheta * costheta)
  if |sintheta| < 1e-30 then (p1, p2, p3)
  else
    let F1 := scale (sub (scale b (1 / (lal * lbl))) (scale a (adotb / (lal * lal * lal * lbl))))
      (ktheta * (theta - theta0) / sintheta)
    let F3 := scale (sub (scale a (1 / (lal * lbl))) (scale b (adotb / (lbl * lbl * lbl * lal))))
      (ktheta * (theta - theta0) / sintheta)
    let F2 := add F1 F3
    ({ p1 with F := add p1.F F1 }, { p2 with F := sub p2.F F2 }, { p3 with F := add p3.F F3 })

/-- Dihedral-twist potential `Vdihedral` of src/system.c. -/
def Vdihedral (p1 p2 p3 p4 : Particle) (phi0 : ℝ) : ℝ :=
  let kphi := BOND_Kphi
  let r1 := sub p2.pos p1.pos
  let r2 := sub p3.pos p2.pos
  let r3 := sub p4.pos p3.pos
  kphi * (1 - Real.cos (dihedral r1 r2 r3 - phi0))

/-- Dihedral potential of a quadruplet held as an indexed family (the C
function receives four pointers into the store; the family makes the
aliasing of `FdihedralParticle`'s `target` with one of the four explicit). -/
def VdihedralQ (q : Fin 4 → Particle) (phi0 : ℝ) : ℝ :=
  Vdihedral (q 0) (q 1) (q 2) (q 3) phi0

/-- Overwrite the x coordinate of a particle's position. -/
def setPosX (p : Particle) (v : ℝ) : Particle := { p with pos := { p.pos with x := v } }

/-- Overwrite the y coordinate of a particle's position. -/
def setPosY (p : Particle) (v : ℝ) : Particle := { p with pos := { p.pos with y := v } }

/-- Overwrite the z coordinate of a particle's position. -/
def setPosZ (p : Particle) (v : ℝ) : Particle := { p with pos := { p.pos with z := v } }

/-- Finite-difference step scale of src/system.c `FdihedralParticle`. -/
def hfactor : ℝ := 1e-8

/-- One-sided finite-difference dihedral force on the target particle
(`FdihedralParticle` of src/system.c): each coordinate of the target is
perturbed in place by `h = coordinate * hfactor`, the potential is
re-evaluated, the coordinate is restored, and the force vector of the
three difference quotients is accumulated onto the target. -/
def FdihedralParticle (t : Fin 4) (q : Fin 4 → Particle) (Vorig phi0 : ℝ) : Fin 4 → Particle :=
  let hx := (q t).pos.x * hfactor
  let qx := Function.update q t (setPosX (q t) ((q t).pos.x + hx))
  let Fx := (Vorig - VdihedralQ qx phi0) / hx
  let qx' := Function.update qx t (setPosX (qx t) ((qx t).pos.x - hx))
  let hy := (qx' t).pos.y * hfactor
  let qy := Function.update qx' t (setPosY (qx' t) ((qx' t).pos.y + hy))
  let Fy := (Vorig - VdihedralQ qy phi0) / hy
  let qy' := Function.update qy t (setPosY (qy t) ((qy t).pos.y - hy))
  let hz := (qy' t).pos.z * hfactor
  let qz := Function.update qy' t (setPosZ (qy' t) ((qy' t).pos.z + hz))
  let Fz := (Vorig - VdihedralQ qz phi0) / hz
  let qz' := Function.update qz t (setPosZ (qz t) ((qz t).pos.z - hz))
  Function.update qz' t { qz' t with F := add (qz' t).F ⟨Fx, Fy, Fz⟩ }

/-- Dihedral force `Fdihedral` of src/system.c: the original potential is
evaluated once, then each of the four particles receives its
finite-difference force in sequence. -/
def Fdihedral (q : Fin 4 → Particle) (phi0 : ℝ) : Fin 4 → Particle :=
  let Vorig := VdihedralQ q phi0
  let q1 := FdihedralParticle 0 q Vorig phi0
  let q2 := FdihedralParticle 1 q1 Vorig phi0
  let q3 := FdihedralParticle 2 q2 Vorig phi0
  FdihedralParticle 3 q3 Vorig phi0

/-- Apply `Fbond` to two particles of the store. -/
def applyFbond (w : World) (k1 : Kind) (i1 : ℕ) (k2 : Kind) (i2 : ℕ) (d0 : ℝ) : World :=
  let r := Fbond (w.get k1 i1) (w.get k2 i2) d0
  (w.set k1 i1 r.1).set k2 i2 r.2

/-- Apply `Fstack` to two particles of the store. -/
def applyFstack (w : World) (k1 : Kind) (i1 : ℕ) (k2 : Kind) (i2 : ℕ) : World :=
  let r := Fstack (w.get k1 i1) (w.get k2 i2)
  (w.set k1 i1 r.1).set k2 i2 r.2

/-- Apply `Fangle` to three particles of the store. -/
def applyFangle (w : World) (k1 : Kind) (i1 : ℕ) (k2 : Kind) (i2 : ℕ) (k3 : Kind) (i3 : ℕ)
    (theta0 : ℝ) : World :=
  let r := Fangle (w.get k1 i1) (w.get k2 i2) (w.get k3 i3) theta0
  ((w.set k1 i1 r.1).set k2 i2 r.2.1).set k3 i3 r.2.2

/-- Pack four particles as an indexed quadruple. -/
def quad (a b c d : Particle) : Fin 4 → Particle := fun j =>
  match j with
  | 0 => a
  | 1 => b
  | 2 => c
  | 3 => d

/-- Apply `Fdihedral` to four particles of the store. -/
def applyFdihedral (w : World) (k1 : Kind) (i1 : ℕ) (k2 : Kind) (i2 : ℕ) (k3 : Kind) (i3 : ℕ)
    (k4 : Kind) (i4 : ℕ) (phi0 : ℝ) : World :=
  let q := quad (w.get k1 i1) (w.get k2 i2) (w.get k3 i3) (w.get k4 i4)
  let r := Fdihedral q phi0
  (((w.set k1 i1 (r 0)).set k2 i2 (r 1)).set k3 i3 (r 2)).set k4 i4 (r 3)

/-- Zero every allocated particle's force accumulator (the reset loop at
the top of `calculateForces`). -/
def resetForces (cfg : Config) (w : World) : World :=
  { Ss := fun i => if i < cfg.numMonomers then { w.Ss i with F := ⟨0, 0, 0⟩ } else w.Ss i
    As := fun i => if i < cfg.numMonomers then { w.As i with F := ⟨0, 0, 0⟩ } else w.As i
    Ps := fun i => if i < cfg.numMonomers then { w.Ps i with F := ⟨0, 0, 0⟩ } else w.Ps i }

/-- The interaction template of monomer `i ≥ 1` (the loop body of
`calculateForces` in src/system.c), in source order. -/
def monomerForces (w : World) (i : ℕ) : World :=
  let w1 := applyFbond w Kind.S i Kind.A i D_SA
  let w2 := applyFbond w1 Kind.S i Kind.P i D_S5P
  let w3 := applyFbond w2 Kind.S i Kind.P (i - 1) D_S3P
  let w4 := applyFstack w3 Kind.A i Kind.A (i - 1)
  let w5 := applyFangle w4 Kind.P i Kind.S i Kind.A i ANGLE_P_5S_A
  let w6 := applyFangle w5 Kind.P i Kind.S i Kind.P (i - 1) ANGLE_P_5S3_P
  let w7 := applyFangle w6 Kind.P (i - 1) Kind.S i Kind.A i ANGLE_P_3S_A
  let w8 := applyFangle w7 Kind.S (i - 1) Kind.P (i - 1) Kind.S i ANGLE_S5_P_3S
  let w9 := applyFdihedral w8 Kind.P i Kind.S i Kind.P (i - 1) Kind.S (i - 1) DIHEDRAL_P_5S3_P_5S
  let w10 := applyFdihedral w9 Kind.A i Kind.S i Kind.P (i - 1) Kind.S (i - 1) DIHEDRAL_A_S3_P_5S
  let w11 := applyFdihedral w10 Kind.S i Kind.P (i - 1) Kind.S (i - 1) Kind.A (i - 1)
    DIHEDRAL_S3_P_5S_A
  if 2 ≤ i then
    applyFdihedral w11 Kind.S i Kind.P (i - 1) Kind.S (i - 1) Kind.P (i - 2) DIHEDRAL_S3_P_5S3_P
  else w11

/-- Full force pass `calculateForces` of src/system.c: reset all force
accumulators, apply the bottom monomer's interactions, then every further
monomer's template in index order. -/
def calculateForces (cfg : Config) (w : World) : World :=
  let w0 := resetForces cfg w
  let w1 := applyFbond w0 Kind.S 0 Kind.A 0 D_SA
  let w2 := applyFbond w1 Kind.S 0 Kind.P 0 D_S5P
  let w3 := applyFangle w2 Kind.P 0 Kind.S 0 Kind.A 0 ANGLE_P_5S_A
  (List.range' 1 (cfg.numMonomers - 1)).foldl monomerForces w3

/-- Apply one particle-wise update to every allocated particle (the C
integrator and thermostat loops run over the whole contiguous store; the
loop bodies are independent per particle). -/
def mapParticles (cfg : Config) (f : Particle → Particle) (w : World) : World :=
  { Ss := fun i => if i < cfg.numMonomers then f (w.Ss i) else w.Ss i
    As := fun i => if i < cfg.numMonomers then f (w.As i) else w.As i
    Ps := fun i => if i < cfg.numMonomers then f (w.Ps i) else w.Ps i }

/-- Velocity-Verlet integrator `verlet` of src/system.c: half velocity
kick and position drift for every particle, one full force recomputation,
then the second half velocity kick for every particle. -/
def verlet (cfg : Config) (w : World) : World :=
  let dt := cfg.timeStep
  let w1 := mapParticles cfg (fun p =>
    let vel' := add p.vel (scale p.F (dt / (2 * p.m)))
    { p with vel := vel', pos := add p.pos (scale vel' dt) }) w
  let w2 := calculateForces cfg w1
  mapParticles cfg (fun p => { p with vel := add p.vel (scale p.F (dt / (2 * p.m))) }) w2

/-- The contiguous particle store `world.all`: all sugars, then all bases,
then all phosphates. -/
def allParticles (cfg : Config) (w : World) : List Particle :=
  (List.range cfg.numMonomers).map w.Ss ++ (List.range cfg.numMonomers).map w.As
    ++ (List.range cfg.numMonomers).map w.Ps

/-- Kinetic energy `kineticEnergy` of src/system.c: accumulate
`m * |v|^2` over the store, halve at the end. -/
def kineticEnergy (cfg : Config) (w : World) : ℝ :=
  ((allParticles cfg w).foldl (fun twiceK p => twiceK + p.m * length2 p.vel) 0) / 2

/-- Instantaneous temperature `temperature` of src/system.c. -/
def temperature (cfg : Config) (w : World) : ℝ :=
  2 / (3 * BOLTZMANN_CONSTANT) * kineticEnergy cfg w / (cfg.numMonomers * 3)

/-- Berendsen-style thermostat `thermostat` of src/system.c: a no-op when
the relaxation time is non-positive, otherwise every velocity is scaled
by `sqrt (1 + dt/tau * (T0/Tk - 1))`. -/
def thermostat (cfg : Config) (w : World) : World :=
  if cfg.thermostatTau ≤ 0 then w
  else
    let Tk := temperature cfg w
    let T0 := cfg.thermostatTemp
    let dt := cfg.timeStep
    let tau := cfg.thermostatTau
    let lambda := Real.sqrt (1 + dt / tau * (T0 / Tk - 1))
    mapParticles cfg (fun p => { p with vel := scale p.vel lambda }) w

/-- Total momentum `momentum` of src/system.c: accumulate `m * v` over
the store. -/
def momentum (cfg : Config) (w : World) : Vec3 :=
  (allParticles cfg w).foldl (fun Ptot p => add (scale p.vel p.m) Ptot) ⟨0, 0, 0⟩

/-- Momentum-conservation check `physicsCheck` of src/system.c: false
(with a diagnostic printed to stderr, which the embedding elides) exactly
when the momentum per monomer exceeds `1e-20`. -/
def physicsCheck (cfg : Config) (w : World) : Bool :=
  let P := momentum cfg w
  let PPM := length P / cfg.numMonomers
  if 1e-20 < PPM then false else true

/-- One simulation step `stepWorld` of src/system.c: integrate, run the
thermostat, advance the simulation clock by one time step (the two
`assert(physicsCheck())` calls do not change the state and are elided). -/
def stepWorld (cfg : Config) (s : World × ℝ) : World × ℝ :=
  (thermostat cfg (verlet cfg s.1), s.2 + cfg.timeStep)

/-- Accumulating a real quantity over a list with a left fold equals the
sum of that quantity over the list. -/
lemma foldl_add_map (f : Particle → ℝ) :
    ∀ (l : List Particle) (c : ℝ),
      l.foldl (fun acc p => acc + f p) c = c + (l.map f).sum := by
  intro l
  induction l with
  | nil => intro c; simp
  | cons p l ih =>
    intro c
    simp only [List.foldl_cons, List.map_cons, List.sum_cons, ih]
    ring

/-- Vector accumulation over a list with a left fold, read through a
component projection that sends `add` to `+`. -/
lemma foldl_addvec_map (g : Particle → Vec3) (proj : Vec3 → ℝ)
    (hproj : ∀ a b, proj (add a b) = proj a + proj b) :
    ∀ (l : List Particle) (z : Vec3),
      proj (l.foldl (fun acc p => add (g p) acc) z)
        = proj z + (l.map fun p => proj (g p)).sum := by
  intro l
  induction l with
  | nil => intro z; simp
  | cons p l ih =>
    intro z
    simp only [List.foldl_cons, List.map_cons, List.sum_cons, ih, hproj]
    ring

/-- Sum of a function over `List.range` equals the `Finset.range` sum. -/
lemma sum_map_list_range (g : ℕ → ℝ) :
    ∀ n : ℕ, ((List.range n).map g).sum = ∑ i in Finset.range n, g i := by
  intro n
  induction n with
  | zero => simp
  | succ n ih => simp [List.range_succ, Finset.sum_range_succ, ih]

/-- C8: for every world state, the diagnostic temperature equals
`(2 / (3 k_B)) * K / (3 numMonomers)`, where `K` is the total kinetic
energy, the sum over all particles of `(1/2) m |v|^2`, and the divisor is
written with `numMonomers`, not with the total particle count. -/
theorem temperature_equipartition_divisor (cfg : Config) (w : World) :
    temperature cfg w
      = 2 / (3 * BOLTZMANN_CONSTANT)
          * (∑ i in Finset.range cfg.numMonomers,
              (1 / 2 * (w.Ss i).m * length2 (w.Ss i).vel
                + 1 / 2 * (w.As i).m * length2 (w.As i).vel
                + 1 / 2 * (w.Ps i).m * length2 (w.Ps i).vel))
          / (3 * (cfg.numMonomers : ℝ)) := by
  have hsum : (∑ i in Finset.range cfg.numMonomers,
        (1 / 2 * (w.Ss i).m * length2 (w.Ss i).vel
          + 1 / 2 * (w.As i).m * length2 (w.As i).vel
          + 1 / 2 * (w.Ps i).m * length2 (w.Ps i).vel))
      = ((∑ i in Finset.range cfg.numMonomers, (w.Ss i).m * length2 (w.Ss i).vel)
        + ((∑ i in Finset.range cfg.numMonomers, (w.As i).m * length2 (w.As i).vel)
          + (∑ i in Finset.range cfg.numMonomers, (w.Ps i).m * length2 (w.Ps i).vel))) / 2 := by
    rw [add_div, add_div, Finset.sum_div, Finset.sum_div, Finset.sum_div,
      ← Finset.sum_add_distrib, ← Finset.sum_add_distrib]
    exact Finset.sum_congr rfl fun i _ => by ring
  unfold temperature kineticEnergy allParticles
  rw [foldl_add_map]
  simp only [List.map_append, List.sum_append, List.map_map]
  rw [sum_map_list_range, sum_map_list_range, sum_map_list_range, hsum]
  simp only [Function.comp]
  ring

/-- C9: the momentum-conservation check returns false exactly when the
momentum per monomer `|P| / numMonomers` exceeds `1e-20`, returns true
otherwise, and the momentum it tests is `P = Σ m·v` over all particles
(componentwise). -/
theorem physicsCheck_iff_momentum_threshold (cfg : Config) (w : World) :
    (physicsCheck cfg w = false
        ↔ 1e-20 < length (momentum cfg w) / cfg.numMonomers)
      ∧ (physicsCheck cfg w = true
        ↔ length (momentum cfg w) / cfg.numMonomers ≤ 1e-20)
      ∧ (momentum cfg w).x = ∑ i in Finset.range cfg.numMonomers,
          ((w.Ss i).m * (w.Ss i).vel.x + (w.As i).m * (w.As i).vel.x
            + (w.Ps i).m * (w.Ps i).vel.x)
      ∧ (momentum cfg w).y = ∑ i in Finset.range cfg.numMonomers,
          ((w.Ss i).m * (w.Ss i).vel.y + (w.As i).m * (w.As i).vel.y
            + (w.Ps i).m * (w.Ps i).vel.y)
      ∧ (momentum cfg w).z = ∑ i in Finset.range cfg.numMonomers,
          ((w.Ss i).m * (w.Ss i).vel.z + (w.As i).m * (w.As i).vel.z
            + (w.Ps i).m * (w.Ps i).vel.z) := by
  refine ⟨?_, ?_, ?_, ?_, ?_⟩
  · unfold physicsCheck
    by_cases h : (1e-20 : ℝ) < length (momentum cfg w) / cfg.numMonomers
    · simp [h]
    · simp [h]
  · unfold physicsCheck
    by_cases h : (1e-20 : ℝ) < length (momentum cfg w) / cfg.numMonomers
    · simp [h, not_le.mpr h]
    · simp [h, not_lt.mp h]
  · unfold momentum allParticles
    rw [foldl_addvec_map _ Vec3.x fun a b => rfl]
    simp only [List.map_append, List.sum_append, List.map_map]
    rw [sum_map_list_range, sum_map_list_range, sum_map_list_range,
      Finset.sum_add_distrib, Finset.sum_add_distrib]
    simp only [Function.comp, scale]
    ring
  · unfold momentum allParticles
    rw [foldl_addvec_map _ Vec3.y fun a b => rfl]
    simp only [List.map_append, List.sum_append, List.map_map]
    rw [sum_map_list_range, sum_map_list_range, sum_map_list_range,
      Finset.sum_add_distrib, Finset.sum_add_distrib]
    simp only [Function.comp, scale]
    ring
  · unfold momentum allParticles
    rw [foldl_addvec_map _ Vec3.z fun a b => rfl]
    simp only [List.map_append, List.sum_append, List.map_map]
    rw [sum_map_list_range, sum_map_list_range, sum_map_list_range,
      Finset.sum_add_distrib, Finset.sum_add_distrib]
    simp only [Function.comp, scale]
    ring

/-- C5: the thermostat is a no-op when the relaxation time is
non-positive; otherwise it multiplies every particle's velocity by the
single factor `sqrt (1 + (dt/tau) * (T0/Tk - 1))` and changes nothing
else; and one simulation step runs it exactly once, after the
integrator. -/
theorem thermostat_noop_or_rescale (cfg : Config) (w : World) (t : ℝ) :
    thermostat cfg w
        = (if cfg.thermostatTau ≤ 0 then w
          else mapParticles cfg (fun p =>
            { p with vel := scale p.vel (Real.sqrt (1 + cfg.timeStep / cfg.thermostatTau
                * (cfg.thermostatTemp / temperature cfg w - 1))) }) w)
      ∧ stepWorld cfg (w, t) = (thermostat cfg (verlet cfg w), t + cfg.timeStep) :=
  ⟨rfl, rfl⟩

/-- Modelled from the spec (refinement reference, spec section 4.2 steps 1
and 4): the half velocity kick `v := v + F/m * dt/2`. -/
def specHalfKick (dt : ℝ) (p : Particle) : Particle :=
  { p with vel := add p.vel (scale (scale p.F (1 / p.m)) (dt / 2)) }

/-- Modelled from the spec (refinement reference, spec section 4.2 step 2):
the position drift `x := x + v * dt`. -/
def specDrift (dt : ℝ) (p : Particle) : Particle :=
  { p with pos := add p.pos (scale p.vel dt) }

/-- Modelled from the spec (refinement reference, spec section 4.2): the
velocity-Verlet sequence: half kick then drift for every particle, one
full force recomputation at the new positions, then the second half kick
for every particle, with `dt = config.timeStep`. -/
def specVelocityVerlet (cfg : Config) (w : World) : World :=
  let dt := cfg.timeStep
  let w1 := mapParticles cfg (fun p => specDrift dt (specHalfKick dt p)) w
  let w2 := calculateForces cfg w1
  mapParticles cfg (specHalfKick dt) w2

/-- C1: one call to the integrator performs exactly the velocity-Verlet
sequence: `v(t+dt/2) = v(t) + F(t)/m * dt/2` and
`x(t+dt) = x(t) + v(t+dt/2) * dt` for every particle, then a single full
force recomputation at the new positions, then
`v(t+dt) = v(t+dt/2) + F(t+dt)/m * dt/2` for every particle, with
`dt = config.timeStep`. -/
theorem verlet_is_velocity_verlet (cfg : Config) (w : World) :
    verlet cfg w = specVelocityVerlet cfg w := by
  have hkick : (fun p : Particle =>
      { p with vel := add p.vel (scale p.F (cfg.timeStep / (2 * p.m))) })
      = specHalfKick cfg.timeStep := by
    funext p
    unfold specHalfKick
    ext <;> dsimp only [add, scale] <;> ring
  have hkd : (fun p : Particle =>
      { p with
        vel := add p.vel (scale p.F (cfg.timeStep / (2 * p.m)))
        pos := add p.pos (scale (add p.vel (scale p.F (cfg.timeStep / (2 * p.m))))
          cfg.timeStep) })
      = (fun p => specDrift cfg.timeStep (specHalfKick cfg.timeStep p)) := by
    funext p
    unfold specDrift specHalfKick
    ext <;> dsimp only [add, scale] <;> ring
  have h1 : verlet cfg w
      = mapParticles cfg
          (fun p : Particle =>
            { p with vel := add p.vel (scale p.F (cfg.timeStep / (2 * p.m))) })
          (calculateForces cfg (mapParticles cfg
            (fun p : Particle =>
              { p with
                vel := add p.vel (scale p.F (cfg.timeStep / (2 * p.m)))
                pos := add p.pos
                  (scale (add p.vel (scale p.F (cfg.timeStep / (2 * p.m)))) cfg.timeStep) })
            w)) := rfl
  have h2 : specVelocityVerlet cfg w
      = mapParticles cfg (specHalfKick cfg.timeStep)
          (calculateForces cfg (mapParticles cfg
            (fun p => specDrift cfg.timeStep (specHalfKick cfg.timeStep p)) w)) := rfl
  rw [h1, h2, hkd, hkick]

/-- Squared length of a vector is non-negative. -/
lemma length2_nonneg (v : Vec3) : 0 ≤ length2 v := by
  unfold length2 dot
  exact add_nonneg (add_nonneg (mul_self_nonneg _) (mul_self_nonneg _)) (mul_self_nonneg _)

/-- Squaring the length gives back the squared length. -/
lemma sq_length (v : Vec3) : length v ^ 2 = length2 v :=
  Real.sq_sqrt (length2_nonneg v)

/-- Length of a scalar multiple. -/
lemma length_scale (v : Vec3) (l : ℝ) : length (scale v l) = |l| * length v := by
  unfold length length2 dot scale
  rw [show (l * v.x * (l * v.x) + l * v.y * (l * v.y) + l * v.z * (l * v.z))
      = l ^ 2 * (v.x * v.x + v.y * v.y + v.z * v.z) from by ring,
    Real.sqrt_mul (sq_nonneg l), Real.sqrt_sq_eq_abs]

/-- C6: for base particles at distance `r > 0` the stacking potential has
the shifted 12-6 Lennard-Jones form `eps (sigma^12/r^12 - 2 sigma^6/r^6 + 1)`,
is never negative, vanishes at `r = sigma`, and the stacking force is the
separation vector scaled by `-12 eps (sigma^12/r^14 - sigma^6/r^8)`, applied
with opposite signs to the two particles. -/
theorem stack_potential_min_and_force (p1 p2 : Particle)
    (hr : 0 < length (sub p2.pos p1.pos)) :
    Vstack p1 p2
        = BOND_STACK * (STACK_SIGMA ^ 12 / length (sub p2.pos p1.pos) ^ 12
            - 2 * STACK_SIGMA ^ 6 / length (sub p2.pos p1.pos) ^ 6 + 1)
      ∧ 0 ≤ Vstack p1 p2
      ∧ (length (sub p2.pos p1.pos) = STACK_SIGMA → Vstack p1 p2 = 0)
      ∧ Fstack p1 p2
          = ({ p1 with F := add p1.F (scale (sub p2.pos p1.pos)
                (-12 * BOND_STACK * (STACK_SIGMA ^ 12 / length (sub p2.pos p1.pos) ^ 14
                  - STACK_SIGMA ^ 6 / length (sub p2.pos p1.pos) ^ 8))) },
            { p2 with F := sub p2.F (scale (sub p2.pos p1.pos)
                (-12 * BOND_STACK * (STACK_SIGMA ^ 12 / length (sub p2.pos p1.pos) ^ 14
                  - STACK_SIGMA ^ 6 / length (sub p2.pos p1.pos) ^ 8))) }) := by
  set r := length (sub p2.pos p1.pos) with hrdef
  have hδ : distance2 p1.pos p2.pos = length2 (sub p2.pos p1.pos) := by
    unfold distance2 length2 dot sub
    ring
  have hr2 : distance2 p1.pos p2.pos = r ^ 2 := by
    rw [hδ, hrdef, sq_length]
  have hform : Vstack p1 p2
      = BOND_STACK * (STACK_SIGMA ^ 12 / r ^ 12 - 2 * STACK_SIGMA ^ 6 / r ^ 6 + 1) := by
    simp only [Vstack]
    rw [hr2]
    field_simp
    ring
  have hσpos : (0 : ℝ) < STACK_SIGMA := by unfold STACK_SIGMA; norm_num
  refine ⟨hform, ?_, ?_, ?_⟩
  · rw [hform, show STACK_SIGMA ^ 12 / r ^ 12 - 2 * STACK_SIGMA ^ 6 / r ^ 6 + 1
        = (STACK_SIGMA ^ 6 / r ^ 6 - 1) ^ 2 from by field_simp; ring]
    have hk : (0 : ℝ) ≤ BOND_STACK := by unfold BOND_STACK EPSILON; norm_num
    exact mul_nonneg hk (sq_nonneg _)
  · intro hσ
    rw [hform, hσ, div_self (pow_ne_zero _ hσpos.ne'), mul_div_assoc,
      div_self (pow_ne_zero _ hσpos.ne')]
    ring
  · simp only [Fstack]
    rw [← hrdef]
    ext <;> dsimp only [add, sub, scale] <;>
      first
      | rfl
      | (field_simp
         ring)

/-- Particle at rest at the origin with unit mass. -/
def restParticle : Particle := ⟨⟨0, 0, 0⟩, ⟨0, 0, 0⟩, ⟨0, 0, 0⟩, 1⟩

/-- One-monomer configuration with the thermostat enabled (`tau = 1 > 0`). -/
def frozenConfig : Config := ⟨1, 1, 300, 1⟩

/-- World in which every particle is at rest, so the kinetic energy and the
instantaneous temperature are zero. -/
def frozenWorld : World := ⟨fun _ => restParticle, fun _ => restParticle, fun _ => restParticle⟩

/-- C3: at a frozen world (all velocities zero) with the thermostat
enabled, the instantaneous temperature is zero, yet the thermostat raises
no error condition: it computes the scale factor by dividing by the zero
temperature and returns normally (its type has no error outcome at all,
mirroring the guard-free `void` function of src/system.c; in C the
division `T0 / 0.0` produces a non-finite value that is silently scaled
into the velocities). -/
theorem thermostat_unguarded_at_zero_temperature :
    0 < frozenConfig.thermostatTau
      ∧ temperature frozenConfig frozenWorld = 0
      ∧ thermostat frozenConfig frozenWorld = frozenWorld := by
  have htau : (0 : ℝ) < frozenConfig.thermostatTau := by norm_num [frozenConfig]
  have hK : kineticEnergy frozenConfig frozenWorld = 0 := by
    simp [kineticEnergy, allParticles, frozenConfig, frozenWorld, restParticle,
      length2, dot, List.range_succ]
  have hT : temperature frozenConfig frozenWorld = 0 := by
    simp [temperature, hK]
  refine ⟨htau, hT, ?_⟩
  simp only [thermostat, not_le.mpr htau, if_neg (not_le.mpr htau)]
  ext k <;>
    simp [mapParticles, frozenWorld, restParticle, scale]

/-- C7: when the two bond vectors at the central particle are exactly or
nearly colinear (the computed `sin theta` below the `1e-30` guard,
covering the angles 0 and pi), the angle force routine adds no force at
all: it returns the three particles unchanged. -/
theorem angle_degeneracy_guard (p1 p2 p3 : Particle) (theta0 t : ℝ) :
    (|Real.sqrt (1 - dot (sub p1.pos p2.pos) (sub p3.pos p2.pos)
          / (length (sub p1.pos p2.pos) * length (sub p3.pos p2.pos))
          * (dot (sub p1.pos p2.pos) (sub p3.pos p2.pos)
            / (length (sub p1.pos p2.pos) * length (sub p3.pos p2.pos))))| < 1e-30
        → Fangle p1 p2 p3 theta0 = (p1, p2, p3))
      ∧ (t ≠ 0 → length (sub p1.pos p2.pos) ≠ 0
        → sub p3.pos p2.pos = scale (sub p1.pos p2.pos) t
        → Fangle p1 p2 p3 theta0 = (p1, p2, p3)) := by
  have guard : |Real.sqrt (1 - dot (sub p1.pos p2.pos) (sub p3.pos p2.pos)
          / (length (sub p1.pos p2.pos) * length (sub p3.pos p2.pos))
          * (dot (sub p1.pos p2.pos) (sub p3.pos p2.pos)
            / (length (sub p1.pos p2.pos) * length (sub p3.pos p2.pos))))| < 1e-30
      → Fangle p1 p2 p3 theta0 = (p1, p2, p3) := by
    intro h
    simp only [Fangle]
    rw [if_pos h]
  refine ⟨guard, fun ht hs hb => guard ?_⟩
  rw [hb, length_scale,
    show dot (sub p1.pos p2.pos) (scale (sub p1.pos p2.pos) t)
      = t * length2 (sub p1.pos p2.pos) from by simp only [dot, scale, length2]; ring]
  set a := sub p1.pos p2.pos
  set s := length a with hsdef
  have hss : s ^ 2 = length2 a := sq_length a
  have habs : |t| ≠ 0 := abs_ne_zero.mpr ht
  have hc : t * length2 a / (s * (|t| * s)) = t / |t| := by
    rw [← hss, div_eq_div_iff (by positivity) habs]
    ring
  rw [hc, show t / |t| * (t / |t|) = 1 from by
    rw [div_mul_div_comm, abs_mul_abs_self]
    exact div_self (mul_ne_zero ht ht)]
  norm_num [Real.sqrt_zero]

/-- Base particle at the origin for the concrete stacking evaluation. -/
def stackP1 : Particle := ⟨⟨0, 0, 0⟩, ⟨0, 0, 0⟩, ⟨0, 0, 0⟩, 1⟩

/-- Base particle at distance `STACK_SIGMA` along the x axis. -/
def stackP2 : Particle := ⟨⟨3.414e-10, 0, 0⟩, ⟨0, 0, 0⟩, ⟨0, 0, 0⟩, 1⟩

/-- The concrete stacking pair sits at separation `3.414e-10`. -/
lemma stack_sep_length : length (sub stackP2.pos stackP1.pos) = 3.414e-10 := by
  have h1 : sub stackP2.pos stackP1.pos = ⟨3.414e-10, 0, 0⟩ := by
    simp [stackP1, stackP2, sub]
  rw [h1]
  unfold length length2 dot
  rw [show ((3.414e-10 : ℝ) * 3.414e-10 + 0 * 0 + 0 * 0) = 3.414e-10 * 3.414e-10 from by
    norm_num]
  exact Real.sqrt_mul_self (by norm_num)

/-- Witness for C6: at separation exactly `sigma` the stacking potential
evaluates to its minimum value 0. -/
theorem stack_potential_min_and_force_witness : Vstack stackP1 stackP2 = 0 := by
  have hr : 0 < length (sub stackP2.pos stackP1.pos) := by
    rw [stack_sep_length]
    norm_num
  exact (stack_potential_min_and_force stackP1 stackP2 hr).2.2.1
    (by rw [stack_sep_length]; norm_num [STACK_SIGMA])

/-- Outer particle of a colinear triplet. -/
def colinP1 : Particle := ⟨⟨1, 0, 0⟩, ⟨0, 0, 0⟩, ⟨0, 0, 0⟩, 1⟩

/-- Central particle of a colinear triplet. -/
def colinP2 : Particle := ⟨⟨0, 0, 0⟩, ⟨0, 0, 0⟩, ⟨0, 0, 0⟩, 1⟩

/-- Outer particle of a colinear triplet, on the same ray as the first. -/
def colinP3 : Particle := ⟨⟨2, 0, 0⟩, ⟨0, 0, 0⟩, ⟨0, 0, 0⟩, 1⟩

/-- Witness for C7: on an exactly colinear triplet the angle force routine
leaves all three particles unchanged. -/
theorem angle_degeneracy_guard_witness :
    Fangle colinP1 colinP2 colinP3 0 = (colinP1, colinP2, colinP3) := by
  have ha : sub colinP1.pos colinP2.pos = ⟨1, 0, 0⟩ := by
    simp [colinP1, colinP2, sub]
  have hlen : length (sub colinP1.pos colinP2.pos) ≠ 0 := by
    rw [ha]
    unfold length length2 dot
    rw [show ((1 : ℝ) * 1 + 0 * 0 + 0 * 0) = 1 from by norm_num, Real.sqrt_one]
    norm_num
  have hb : sub colinP3.pos colinP2.pos = scale (sub colinP1.pos colinP2.pos) 2 := by
    rw [ha]
    simp [colinP3, colinP2, sub, scale]
  exact (angle_degeneracy_guard colinP1 colinP2 colinP3 0 2).2 (by norm_num) hlen hb

/-- Two particles agreeing on position, velocity and mass (the force
accumulator may differ). -/
def pvmEq (p q : Particle) : Prop := p.pos = q.pos ∧ p.vel = q.vel ∧ p.m = q.m

/-- Reflexivity of `pvmEq`. -/
lemma pvmEq_refl (p : Particle) : pvmEq p p := ⟨rfl, rfl, rfl⟩

/-- Transitivity of `pvmEq`. -/
lemma pvmEq_trans {p q r : Particle} (h1 : pvmEq p q) (h2 : pvmEq q r) : pvmEq p r :=
  ⟨h1.1.trans h2.1, h1.2.1.trans h2.2.1, h1.2.2.trans h2.2.2⟩

/-- Two worlds agreeing on every particle's position, velocity and mass. -/
def samePVM (w w' : World) : Prop := ∀ (k : Kind) (i : ℕ), pvmEq (w.get k i) (w'.get k i)

/-- Reading after writing: either the written particle (at the written
slot) or the untouched one. -/
lemma World.get_set (w : World) (k : Kind) (i : ℕ) (p : Particle) (k' : Kind) (i' : ℕ) :
    ((w.set k i p).get k' i' = p ∧ k' = k ∧ i' = i)
      ∨ (w.set k i p).get k' i' = w.get k' i' := by
  cases k <;> cases k' <;>
    simp only [World.set, World.get] <;>
    first
    | exact Or.inr rfl
    | exact Or.inr trivial
    | (rcases eq_or_ne i' i with rfl | hne
       · exact Or.inl ⟨Function.update_same _ _ _, trivial, rfl⟩
       · exact Or.inr (Function.update_noteq hne _ _))

/-- Writing a particle that agrees on position, velocity and mass with the
stored one preserves world agreement. -/
lemma samePVM_set {w w' : World} (hw : samePVM w w') (k : Kind) (i : ℕ) {p : Particle}
    (hp : pvmEq (w.get k i) p) : samePVM w (w'.set k i p) := by
  intro k' i'
  rcases World.get_set w' k i p k' i' with ⟨h, rfl, rfl⟩ | h
  · rw [h]
    exact hp
  · rw [h]
    exact hw k' i'

/-- The bond force changes only the force accumulators. -/
lemma Fbond_pvm (p1 p2 : Particle) (d0 : ℝ) :
    pvmEq p1 (Fbond p1 p2 d0).1 ∧ pvmEq p2 (Fbond p1 p2 d0).2 :=
  ⟨⟨rfl, rfl, rfl⟩, ⟨rfl, rfl, rfl⟩⟩

/-- The stacking force changes only the force accumulators. -/
lemma Fstack_pvm (p1 p2 : Particle) :
    pvmEq p1 (Fstack p1 p2).1 ∧ pvmEq p2 (Fstack p1 p2).2 :=
  ⟨⟨rfl, rfl, rfl⟩, ⟨rfl, rfl, rfl⟩⟩

/-- The angle force changes only the force accumulators. -/
lemma Fangle_pvm (p1 p2 p3 : Particle) (theta0 : ℝ) :
    pvmEq p1 (Fangle p1 p2 p3 theta0).1 ∧ pvmEq p2 (Fangle p1 p2 p3 theta0).2.1
      ∧ pvmEq p3 (Fangle p1 p2 p3 theta0).2.2 := by
  simp only [Fangle]
  split
  · exact ⟨⟨rfl, rfl, rfl⟩, ⟨rfl, rfl, rfl⟩, ⟨rfl, rfl, rfl⟩⟩
  · exact ⟨⟨rfl, rfl, rfl⟩, ⟨rfl, rfl, rfl⟩, ⟨rfl, rfl, rfl⟩⟩

/-- The finite-difference dihedral force on one target restores every
perturbed coordinate exactly and changes only the target's force
accumulator. -/
lemma FdihedralParticle_pvm (t : Fin 4) (q : Fin 4 → Particle) (Vorig phi0 : ℝ) (j : Fin 4) :
    pvmEq (q j) (FdihedralParticle t q Vorig phi0 j) := by
  rcases eq_or_ne j t with rfl | hne
  · simp only [FdihedralParticle, Function.update_same, setPosX, setPosY, setPosZ]
    refine ⟨?_, rfl, rfl⟩
    ext <;> dsimp <;> ring
  · simp only [FdihedralParticle, Function.update_noteq hne]
    exact pvmEq_refl _

/-- The dihedral force changes only the four force accumulators. -/
lemma Fdihedral_pvm (q : Fin 4 → Particle) (phi0 : ℝ) (j : Fin 4) :
    pvmEq (q j) (Fdihedral q phi0 j) := by
  simp only [Fdihedral]
  exact pvmEq_trans (FdihedralParticle_pvm _ _ _ _ _)
    (pvmEq_trans (FdihedralParticle_pvm _ _ _ _ _)
      (pvmEq_trans (FdihedralParticle_pvm _ _ _ _ _) (FdihedralParticle_pvm _ _ _ _ _)))

/-- `applyFbond` preserves positions, velocities and masses. -/
lemma samePVM_applyFbond {w w' : World} (hw : samePVM w w') (k1 : Kind) (i1 : ℕ) (k2 : Kind)
    (i2 : ℕ) (d0 : ℝ) : samePVM w (applyFbond w' k1 i1 k2 i2 d0) := by
  simp only [applyFbond]
  exact samePVM_set (samePVM_set hw k1 i1 (pvmEq_trans (hw k1 i1) (Fbond_pvm _ _ _).1))
    k2 i2 (pvmEq_trans (hw k2 i2) (Fbond_pvm _ _ _).2)

/-- `applyFstack` preserves positions, velocities and masses. -/
lemma samePVM_applyFstack {w w' : World} (hw : samePVM w w') (k1 : Kind) (i1 : ℕ) (k2 : Kind)
    (i2 : ℕ) : samePVM w (applyFstack w' k1 i1 k2 i2) := by
  simp only [applyFstack]
  exact samePVM_set (samePVM_set hw k1 i1 (pvmEq_trans (hw k1 i1) (Fstack_pvm _ _).1))
    k2 i2 (pvmEq_trans (hw k2 i2) (Fstack_pvm _ _).2)

/-- `applyFangle` preserves positions, velocities and masses. -/
lemma samePVM_applyFangle {w w' : World} (hw : samePVM w w') (k1 : Kind) (i1 : ℕ) (k2 : Kind)
    (i2 : ℕ) (k3 : Kind) (i3 : ℕ) (theta0 : ℝ) :
    samePVM w (applyFangle w' k1 i1 k2 i2 k3 i3 theta0) := by
  simp only [applyFangle]
  exact samePVM_set
    (samePVM_set
      (samePVM_set hw k1 i1 (pvmEq_trans (hw k1 i1) (Fangle_pvm _ _ _ _).1))
      k2 i2 (pvmEq_trans (hw k2 i2) (Fangle_pvm _ _ _ _).2.1))
    k3 i3 (pvmEq_trans (hw k3 i3) (Fangle_pvm _ _ _ _).2.2)

/-- `applyFdihedral` preserves positions, velocities and masses. -/
lemma samePVM_applyFdihedral {w w' : World} (hw : samePVM w w') (k1 : Kind) (i1 : ℕ)
    (k2 : Kind) (i2 : ℕ) (k3 : Kind) (i3 : ℕ) (k4 : Kind) (i4 : ℕ) (phi0 : ℝ) :
    samePVM w (applyFdihedral w' k1 i1 k2 i2 k3 i3 k4 i4 phi0) := by
  simp only [applyFdihedral]
  refine samePVM_set (samePVM_set (samePVM_set (samePVM_set hw k1 i1 ?_) k2 i2 ?_) k3 i3 ?_)
    k4 i4 ?_
  · exact pvmEq_trans (hw k1 i1)
      (Fdihedral_pvm (quad (w'.get k1 i1) (w'.get k2 i2) (w'.get k3 i3) (w'.get k4 i4)) phi0 0)
  · exact pvmEq_trans (hw k2 i2)
      (Fdihedral_pvm (quad (w'.get k1 i1) (w'.get k2 i2) (w'.get k3 i3) (w'.get k4 i4)) phi0 1)
  · exact pvmEq_trans (hw k3 i3)
      (Fdihedral_pvm (quad (w'.get k1 i1) (w'.get k2 i2) (w'.get k3 i3) (w'.get k4 i4)) phi0 2)
  · exact pvmEq_trans (hw k4 i4)
      (Fdihedral_pvm (quad (w'.get k1 i1) (w'.get k2 i2) (w'.get k3 i3) (w'.get k4 i4)) phi0 3)

/-- Resetting the force accumulators preserves positions, velocities and
masses. -/
lemma samePVM_resetForces (cfg : Config) (w : World) : samePVM w (resetForces cfg w) := by
  intro k i
  cases k <;> simp only [resetForces, World.get] <;> split <;> exact ⟨rfl, rfl, rfl⟩

/-- One monomer's interaction template preserves positions, velocities and
masses. -/
lemma samePVM_monomerForces {w w' : World} (hw : samePVM w w') (i : ℕ) :
    samePVM w (monomerForces w' i) := by
  simp only [monomerForces]
  split
  · exact samePVM_applyFdihedral (samePVM_applyFdihedral (samePVM_applyFdihedral
      (samePVM_applyFdihedral (samePVM_applyFangle (samePVM_applyFangle (samePVM_applyFangle
        (samePVM_applyFangle (samePVM_applyFstack (samePVM_applyFbond (samePVM_applyFbond
          (samePVM_applyFbond hw _ _ _ _ _) _ _ _ _ _) _ _ _ _ _) _ _ _ _)
          _ _ _ _ _ _ _) _ _ _ _ _ _ _) _ _ _ _ _ _ _) _ _ _ _ _ _ _)
      _ _ _ _ _ _ _ _ _) _ _ _ _ _ _ _ _ _) _ _ _ _ _ _ _ _ _) _ _ _ _ _ _ _ _ _
  · exact samePVM_applyFdihedral (samePVM_applyFdihedral (samePVM_applyFdihedral
      (samePVM_applyFangle (samePVM_applyFangle (samePVM_applyFangle
        (samePVM_applyFangle (samePVM_applyFstack (samePVM_applyFbond (samePVM_applyFbond
          (samePVM_applyFbond hw _ _ _ _ _) _ _ _ _ _) _ _ _ _ _) _ _ _ _)
          _ _ _ _ _ _ _) _ _ _ _ _ _ _) _ _ _ _ _ _ _) _ _ _ _ _ _ _)
      _ _ _ _ _ _ _ _ _) _ _ _ _ _ _ _ _ _) _ _ _ _ _ _ _ _ _

/-- Folding monomer templates over any index list preserves positions,
velocities and masses. -/
lemma samePVM_foldl {w : World} (l : List ℕ) :
    ∀ {w' : World}, samePVM w w' → samePVM w (l.foldl monomerForces w') := by
  induction l with
  | nil => intro w' hw; exact hw
  | cons i l ih => intro w' hw; exact ih (samePVM_monomerForces hw i)

/-- C10: a full force pass mutates only the force accumulators: every
particle's position, velocity and mass are unchanged by
`calculateForces`; in particular the temporary per-axis perturbations of
the finite-difference dihedral forces are exactly undone. -/
theorem calculateForces_frame (cfg : Config) (w : World) :
    ∀ (k : Kind) (i : ℕ),
      ((calculateForces cfg w).get k i).pos = (w.get k i).pos
        ∧ ((calculateForces cfg w).get k i).vel = (w.get k i).vel
        ∧ ((calculateForces cfg w).get k i).m = (w.get k i).m := by
  have h : samePVM w (calculateForces cfg w) := by
    simp only [calculateForces]
    exact samePVM_foldl _ (samePVM_applyFangle (samePVM_applyFbond (samePVM_applyFbond
      (samePVM_resetForces cfg w) _ _ _ _ _) _ _ _ _ _) _ _ _ _ _ _ _)
  intro k i
  obtain ⟨h1, h2, h3⟩ := h k i
  exact ⟨h1.symm, h2.symm, h3.symm⟩

/-- C2 (amended): a bond or stacking force call adds exactly opposite
vectors to its two particles, and an angle force call adds three vectors
whose sum is exactly zero, so each of these calls preserves the total of
the force accumulators (hence total momentum) exactly; no such exact
statement is made for the finite-difference dihedral force. -/
theorem pair_and_triplet_forces_momentum_conserving :
    (∀ (p1 p2 : Particle) (d0 : ℝ),
        sub (Fbond p1 p2 d0).1.F p1.F = sub p2.F (Fbond p1 p2 d0).2.F
          ∧ add (Fbond p1 p2 d0).1.F (Fbond p1 p2 d0).2.F = add p1.F p2.F)
      ∧ (∀ p1 p2 : Particle,
        sub (Fstack p1 p2).1.F p1.F = sub p2.F (Fstack p1 p2).2.F
          ∧ add (Fstack p1 p2).1.F (Fstack p1 p2).2.F = add p1.F p2.F)
      ∧ (∀ (p1 p2 p3 : Particle) (theta0 : ℝ),
        add (add (Fangle p1 p2 p3 theta0).1.F ((Fangle p1 p2 p3 theta0).2.1).F)
            ((Fangle p1 p2 p3 theta0).2.2).F
          = add (add p1.F p2.F) p3.F) := by
  refine ⟨fun p1 p2 d0 => ⟨?_, ?_⟩, fun p1 p2 => ⟨?_, ?_⟩, fun p1 p2 p3 theta0 => ?_⟩
  · simp only [Fbond]
    ext <;> dsimp only [add, sub, scale] <;> ring
  · simp only [Fbond]
    ext <;> dsimp only [add, sub, scale] <;> ring
  · simp only [Fstack]
    ext <;> dsimp only [add, sub, scale] <;> ring
  · simp only [Fstack]
    ext <;> dsimp only [add, sub, scale] <;> ring
  · simp only [Fangle]
    split
    · rfl
    · ext <;> dsimp only [add, sub, scale] <;> ring

/-- Reading a non-target slot of the finite-difference update. -/
lemma FdihedralParticle_apply_ne (t : Fin 4) (q : Fin 4 → Particle) (Vorig phi0 : ℝ)
    (j : Fin 4) (h : j ≠ t) : FdihedralParticle t q Vorig phi0 j = q j := by
  simp only [FdihedralParticle, Function.update_noteq h]

/-- The x-axis finite-difference quotient of `FdihedralParticle`. -/
def fdiffX (q : Fin 4 → Particle) (t : Fin 4) (Vorig phi0 : ℝ) : ℝ :=
  (Vorig - VdihedralQ
      (Function.update q t (setPosX (q t) ((q t).pos.x + (q t).pos.x * hfactor))) phi0)
    / ((q t).pos.x * hfactor)

/-- The y-axis finite-difference quotient of `FdihedralParticle`. -/
def fdiffY (q : Fin 4 → Particle) (t : Fin 4) (Vorig phi0 : ℝ) : ℝ :=
  (Vorig - VdihedralQ
      (Function.update q t (setPosY (q t) ((q t).pos.y + (q t).pos.y * hfactor))) phi0)
    / ((q t).pos.y * hfactor)

/-- The z-axis finite-difference quotient of `FdihedralParticle`. -/
def fdiffZ (q : Fin 4 → Particle) (t : Fin 4) (Vorig phi0 : ℝ) : ℝ :=
  (Vorig - VdihedralQ
      (Function.update q t (setPosZ (q t) ((q t).pos.z + (q t).pos.z * hfactor))) phi0)
    / ((q t).pos.z * hfactor)

/-- The dihedral potential of a quadruplet depends only on the positions. -/
lemma VdihedralQ_congr (q q' : Fin 4 → Particle) (h : ∀ j, (q j).pos = (q' j).pos)
    (phi0 : ℝ) : VdihedralQ q phi0 = VdihedralQ q' phi0 := by
  simp only [VdihedralQ, Vdihedral]
  rw [h 0, h 1, h 2, h 3]

/-- Updating one slot with particles of equal position gives the same
dihedral potential. -/
lemma VdihedralQ_update_congr (q : Fin 4 → Particle) (t : Fin 4) (p p' : Particle)
    (h : p.pos = p'.pos) (phi0 : ℝ) :
    VdihedralQ (Function.update q t p) phi0 = VdihedralQ (Function.update q t p') phi0 :=
  VdihedralQ_congr _ _ (fun j => by
    rcases eq_or_ne j t with rfl | hne
    · rw [Function.update_same, Function.update_same, h]
    · rw [Function.update_noteq hne, Function.update_noteq hne]) phi0

/-- The force accumulated on the target by `FdihedralParticle` is the
vector of the three per-axis finite-difference quotients, each taken at
the original positions (the other axes' perturbations having been exactly
restored). -/
lemma FdihedralParticle_F (t : Fin 4) (q : Fin 4 → Particle) (Vorig phi0 : ℝ) :
    (FdihedralParticle t q Vorig phi0 t).F
      = add (q t).F ⟨fdiffX q t Vorig phi0, fdiffY q t Vorig phi0, fdiffZ q t Vorig phi0⟩ := by
  simp only [FdihedralParticle, Function.update_same, Function.update_idem,
    fdiffX, fdiffY, fdiffZ, setPosX, setPosY, setPosZ]
  congr 1
  rw [Vec3.mk.injEq]
  refine ⟨rfl, ?_, ?_⟩
  · congr 1
    congr 1
    apply VdihedralQ_update_congr
    ext <;> dsimp <;> ring
  · congr 1
    congr 1
    apply VdihedralQ_update_congr
    ext <;> dsimp <;> ring

/-- First particle of the concrete dihedral quadruplet. -/
def dihP1 : Particle := ⟨⟨1, 0, 0⟩, ⟨0, 0, 0⟩, ⟨0, 0, 0⟩, 1⟩

/-- Second particle of the concrete dihedral quadruplet. -/
def dihP2 : Particle := ⟨⟨0, 0, 0⟩, ⟨0, 0, 0⟩, ⟨0, 0, 0⟩, 1⟩

/-- Third particle of the concrete dihedral quadruplet. -/
def dihP3 : Particle := ⟨⟨0, 0, 1⟩, ⟨0, 0, 0⟩, ⟨0, 0, 0⟩, 1⟩

/-- Fourth particle of the concrete dihedral quadruplet, the only one with
a non-zero y coordinate. -/
def dihP4 : Particle := ⟨⟨1, 1, 1⟩, ⟨0, 0, 0⟩, ⟨0, 0, 0⟩, 1⟩

/-- The concrete quadruplet, with all force accumulators zero. -/
def dihQ : Fin 4 → Particle := quad dihP1 dihP2 dihP3 dihP4

/-- Closed-form dihedral potential of the concrete quadruplet with the
fourth particle's y coordinate left free, at `phi0 = pi/2`. -/
lemma Vdih_eval (c : ℝ) :
    Vdihedral dihP1 dihP2 dihP3 ⟨⟨1, c, 1⟩, ⟨0, 0, 0⟩, ⟨0, 0, 0⟩, 1⟩ (Real.pi / 2)
      = BOND_Kphi * (1 - c / Real.sqrt (1 + c * c)) := by
  simp only [Vdihedral, dihedral, atan2, dihP1, dihP2, dihP3, sub, cross, dot, length, length2]
  norm_num [Real.sqrt_one]
  rw [Real.cos_sub_pi_div_two, Complex.sin_arg]
  simp [Complex.abs_apply, Complex.normSq_mk]

/-- The y finite-difference quotient vanishes on a slot with zero y
coordinate, because the step size is then zero. -/
lemma fdiffY_zero_of_posy_zero (q : Fin 4 → Particle) (t : Fin 4) (V phi0 : ℝ)
    (h : (q t).pos.y = 0) : fdiffY q t V phi0 = 0 := by
  simp only [fdiffY, h]
  norm_num

/-- The y component of the force accumulated on the last target, with the
evaluation state rewritten back to the original positions. -/
lemma FP3_F_y (q3 : Fin 4 → Particle) (V phi0 : ℝ)
    (hpos : ∀ j, (q3 j).pos = (dihQ j).pos) :
    ((FdihedralParticle 3 q3 V phi0) 3).F.y
      = (q3 3).F.y
        + (V - VdihedralQ (Function.update dihQ 3 (setPosY (dihQ 3) (1 + 1 * hfactor))) phi0)
          / (1 * hfactor) := by
  rw [FdihedralParticle_F]
  have h3 : (q3 3).pos = (dihQ 3).pos := hpos 3
  have h3y : (q3 3).pos.y = 1 := by rw [h3]; rfl
  simp only [add, fdiffY]
  rw [h3y]
  have hV : VdihedralQ
        (Function.update q3 3 (setPosY (q3 3) (1 + 1 * hfactor))) phi0
      = VdihedralQ (Function.update dihQ 3 (setPosY (dihQ 3) (1 + 1 * hfactor))) phi0 := by
    apply VdihedralQ_congr
    intro j
    rcases eq_or_ne j 3 with rfl | hne
    · rw [Function.update_same, Function.update_same]
      show (⟨(q3 3).pos.x, 1 + 1 * hfactor, (q3 3).pos.z⟩ : Vec3)
        = (⟨(dihQ 3).pos.x, 1 + 1 * hfactor, (dihQ 3).pos.z⟩ : Vec3)
      rw [h3]
    · rw [Function.update_noteq hne, Function.update_noteq hne]
      exact hpos j
  rw [hV]

/-- Positions are untouched through the first three finite-difference
targets of the concrete quadruplet. -/
lemma dihQ_q3_pos (j : Fin 4) :
    ((FdihedralParticle 2 (FdihedralParticle 1 (FdihedralParticle 0 dihQ
        (VdihedralQ dihQ (Real.pi / 2)) (Real.pi / 2))
        (VdihedralQ dihQ (Real.pi / 2)) (Real.pi / 2))
        (VdihedralQ dihQ (Real.pi / 2)) (Real.pi / 2)) j).pos = (dihQ j).pos :=
  (pvmEq_trans (pvmEq_trans (FdihedralParticle_pvm 0 dihQ _ _ j)
    (FdihedralParticle_pvm 1 _ _ _ j)) (FdihedralParticle_pvm 2 _ _ _ j)).1.symm

/-- The first particle receives no y force (its y coordinate is zero). -/
lemma dihQ_F_y_0 : ((Fdihedral dihQ (Real.pi / 2)) 0).F.y = 0 := by
  simp only [Fdihedral]
  rw [FdihedralParticle_apply_ne 3 _ _ _ 0 (by decide),
    FdihedralParticle_apply_ne 2 _ _ _ 0 (by decide),
    FdihedralParticle_apply_ne 1 _ _ _ 0 (by decide),
    FdihedralParticle_F 0 dihQ _ _]
  simp only [add]
  rw [fdiffY_zero_of_posy_zero _ _ _ _ (show (dihQ 0).pos.y = 0 from rfl),
    show (dihQ 0).F.y = 0 from rfl]
  norm_num

/-- The second particle receives no y force (its y coordinate is zero). -/
lemma dihQ_F_y_1 : ((Fdihedral dihQ (Real.pi / 2)) 1).F.y = 0 := by
  simp only [Fdihedral]
  rw [FdihedralParticle_apply_ne 3 _ _ _ 1 (by decide),
    FdihedralParticle_apply_ne 2 _ _ _ 1 (by decide),
    FdihedralParticle_F 1 _ _ _]
  simp only [add]
  rw [FdihedralParticle_apply_ne 0 _ _ _ 1 (by decide)]
  have hq1 : ((FdihedralParticle 0 dihQ (VdihedralQ dihQ (Real.pi / 2)) (Real.pi / 2))
      1).pos.y = 0 := by
    rw [FdihedralParticle_apply_ne 0 _ _ _ 1 (by decide)]
    rfl
  rw [fdiffY_zero_of_posy_zero _ _ _ _ hq1, show (dihQ 1).F.y = 0 from rfl]
  norm_num

/-- The third particle receives no y force (its y coordinate is zero). -/
lemma dihQ_F_y_2 : ((Fdihedral dihQ (Real.pi / 2)) 2).F.y = 0 := by
  simp only [Fdihedral]
  rw [FdihedralParticle_apply_ne 3 _ _ _ 2 (by decide),
    FdihedralParticle_F 2 _ _ _]
  simp only [add]
  rw [FdihedralParticle_apply_ne 1 _ _ _ 2 (by decide),
    FdihedralParticle_apply_ne 0 _ _ _ 2 (by decide)]
  have hq2 : ((FdihedralParticle 1 (FdihedralParticle 0 dihQ
      (VdihedralQ dihQ (Real.pi / 2)) (Real.pi / 2))
      (VdihedralQ dihQ (Real.pi / 2)) (Real.pi / 2)) 2).pos.y = 0 := by
    rw [FdihedralParticle_apply_ne 1 _ _ _ 2 (by decide),
      FdihedralParticle_apply_ne 0 _ _ _ 2 (by decide)]
    rfl
  rw [fdiffY_zero_of_posy_zero _ _ _ _ hq2, show (dihQ 2).F.y = 0 from rfl]
  norm_num

/-- The fourth particle's y force is the single surviving finite
difference. -/
lemma dihQ_F_y_3 : ((Fdihedral dihQ (Real.pi / 2)) 3).F.y
    = (VdihedralQ dihQ (Real.pi / 2)
        - VdihedralQ (Function.update dihQ 3 (setPosY (dihQ 3) (1 + 1 * hfactor)))
          (Real.pi / 2))
      / (1 * hfactor) := by
  simp only [Fdihedral]
  rw [FP3_F_y _ _ _ dihQ_q3_pos]
  rw [FdihedralParticle_apply_ne 2 _ _ _ 3 (by decide),
    FdihedralParticle_apply_ne 1 _ _ _ 3 (by decide),
    FdihedralParticle_apply_ne 0 _ _ _ 3 (by decide),
    show (dihQ 3).F.y = 0 from rfl]
  norm_num

/-- Original dihedral potential of the concrete quadruplet. -/
lemma Vorig_eval : VdihedralQ dihQ (Real.pi / 2) = BOND_Kphi * (1 - 1 / Real.sqrt 2) := by
  rw [show VdihedralQ dihQ (Real.pi / 2)
      = Vdihedral dihP1 dihP2 dihP3 ⟨⟨1, 1, 1⟩, ⟨0, 0, 0⟩, ⟨0, 0, 0⟩, 1⟩ (Real.pi / 2)
      from rfl, Vdih_eval 1]
  norm_num

/-- Dihedral potential after perturbing the fourth particle's y
coordinate by its finite-difference step. -/
lemma Vpert_eval :
    VdihedralQ (Function.update dihQ 3 (setPosY (dihQ 3) (1 + 1 * hfactor))) (Real.pi / 2)
      = BOND_Kphi * (1 - (1 + 1 * hfactor)
          / Real.sqrt (1 + (1 + 1 * hfactor) * (1 + 1 * hfactor))) := by
  rw [show VdihedralQ (Function.update dihQ 3 (setPosY (dihQ 3) (1 + 1 * hfactor)))
        (Real.pi / 2)
      = Vdihedral dihP1 dihP2 dihP3 ⟨⟨1, 1 + 1 * hfactor, 1⟩, ⟨0, 0, 0⟩, ⟨0, 0, 0⟩, 1⟩
        (Real.pi / 2) from rfl, Vdih_eval (1 + 1 * hfactor)]

/-- Strict growth of the sine of the dihedral angle under the y
perturbation. -/
lemma sin_ratio_strict :
    1 / Real.sqrt 2
      < (1 + 1 * hfactor) / Real.sqrt (1 + (1 + 1 * hfactor) * (1 + 1 * hfactor)) := by
  have hc : (1 : ℝ) < 1 + 1 * hfactor := by unfold hfactor; norm_num
  set c : ℝ := 1 + 1 * hfactor with hcdef
  have hc0 : (0 : ℝ) < c := by linarith
  have h2 : (0 : ℝ) < Real.sqrt 2 := Real.sqrt_pos.mpr (by norm_num)
  have hA0 : (0 : ℝ) < Real.sqrt (1 + c * c) := Real.sqrt_pos.mpr (by nlinarith)
  rw [div_lt_div_iff₀ h2 hA0]
  have hstep : Real.sqrt (1 + c * c) < Real.sqrt (2 * (c * c)) :=
    Real.sqrt_lt_sqrt (by nlinarith) (by nlinarith)
  have h22 : Real.sqrt (2 * (c * c)) = Real.sqrt 2 * c := by
    rw [Real.sqrt_mul (by norm_num), Real.sqrt_mul_self hc0.le]
  nlinarith [hstep, h22]

/-- Counterexample to C2 as stated: at the explicit quadruplet `dihQ`
with `phi0 = pi/2`, starting from zero force accumulators, the four force
vectors added by one `Fdihedral` call do not sum to the zero vector (the
finite-difference gradients are not exactly antisymmetric). -/
theorem Fdihedral_net_force_not_zero :
    add (add (add ((Fdihedral dihQ (Real.pi / 2)) 0).F ((Fdihedral dihQ (Real.pi / 2)) 1).F)
        ((Fdihedral dihQ (Real.pi / 2)) 2).F) ((Fdihedral dihQ (Real.pi / 2)) 3).F
      ≠ (⟨0, 0, 0⟩ : Vec3) := by
  intro hEq
  have hy := congrArg Vec3.y hEq
  simp only [add] at hy
  rw [dihQ_F_y_0, dihQ_F_y_1, dihQ_F_y_2, dihQ_F_y_3, Vorig_eval, Vpert_eval] at hy
  have hlt := sin_ratio_strict
  have hkphi : (0 : ℝ) < BOND_Kphi := by unfold BOND_Kphi EPSILON; norm_num
  have hhf : (0 : ℝ) < 1 * hfactor := by unfold hfactor; norm_num
  have hnum : 0 < BOND_Kphi * (1 - 1 / Real.sqrt 2)
      - BOND_Kphi * (1 - (1 + 1 * hfactor)
        / Real.sqrt (1 + (1 + 1 * hfactor) * (1 + 1 * hfactor))) := by
    nlinarith [hlt, hkphi]
  have hpos : 0 < (BOND_Kphi * (1 - 1 / Real.sqrt 2)
      - BOND_Kphi * (1 - (1 + 1 * hfactor)
        / Real.sqrt (1 + (1 + 1 * hfactor) * (1 + 1 * hfactor)))) / (1 * hfactor) :=
    div_pos hnum hhf
  nlinarith [hy, hpos]

end DNA
